import Mathlib

/-!
Shallow embedding of the update core of the terminal snake game in
`src/main.rs`: the occupancy ring and free-slot permutation
(`hashed_positions` with its inverse `indices`), the per-tick transition
`SnakeGame.update`, the constructor `defaultGame`, and the driving loop's
move counter (`playLoop`).

Modelling conventions:
* Rust `usize` values become `Nat`; all indexing in the source stays below
  `MAP_SIZE`, so no wraparound semantics is needed for them.  The one place
  `usize` subtraction could underflow (`self.length - 1` in `update`, and
  `self.length -= 1` in `pop_snake_tail`) is modelled as an explicit fault:
  the checked operations return `none` there.
* Rust `i8` coordinates become `Int`; during legal play every coordinate
  arithmetic stays inside `[-1, 16]`, far from `i8` overflow, so `Int` is
  faithful on the states the claims quantify over.
* The RNG draw `rand::Rng::random_range(&mut rng, 0..n)` is modelled by an
  oracle argument `r : Nat` reduced modulo `n`: the set of representable
  draws is exactly `[0, n)`, the set of values the RNG can return.  The
  empty range `n = 0` makes `random_range` panic; that fault is `none`.
* The `_ => panic!("Invalid cell value")` arm of the collision dispatch is
  also modelled as `none`.
-/

def MAP_SIDE_LENGTH : Nat := 16

def MAP_SIZE : Nat := MAP_SIDE_LENGTH * MAP_SIDE_LENGTH

structure Position where
  x : Int
  y : Int
deriving DecidableEq

def DIRECTION_NONE : Position := ⟨0, 0⟩

def DIRECTION_RIGHT : Position := ⟨1, 0⟩

def DIRECTION_UP : Position := ⟨0, -1⟩

def DIRECTION_LEFT : Position := ⟨-1, 0⟩

def DIRECTION_DOWN : Position := ⟨0, 1⟩

def CELL_EMPTY : Nat := 0

def CELL_FOOD : Nat := 1

def CELL_SNAKE : Nat := 2

def STATE_OVER : Nat := 0

def STATE_READY : Nat := 1

def STATE_RUN : Nat := 2

def Position.from_hash (hash : Nat) : Position :=
  ⟨hash % MAP_SIDE_LENGTH, hash / MAP_SIDE_LENGTH⟩

def Position.as_hash (p : Position) : Nat :=
  p.y.toNat * MAP_SIDE_LENGTH + p.x.toNat

structure SnakeGame where
  direction : Position
  map : Nat → Nat
  tail_index : Nat
  length : Nat
  hashed_positions : Nat → Nat
  indices : Nat → Nat

def SnakeGame.wrapping_offset (base off : Nat) : Nat :=
  (base + off) % MAP_SIZE

/-- Model of `random_food_hashed_position`: the uniform draw over the
`MAP_SIZE - length` free slots, with the empty-range panic as `none`. -/
def SnakeGame.random_food_hashed_position (s : SnakeGame) (r : Nat) : Option Nat :=
  let empty_indices_base := SnakeGame.wrapping_offset s.tail_index s.length
  let empty_indices_length := MAP_SIZE - s.length
  if empty_indices_length = 0 then none
  else
    some (s.hashed_positions
      (SnakeGame.wrapping_offset empty_indices_base (r % empty_indices_length)))

def SnakeGame.generate_food (s : SnakeGame) (r : Nat) : Option SnakeGame :=
  (s.random_food_hashed_position r).map fun food_hash =>
    { s with map := Function.update s.map food_hash CELL_FOOD }

/-- State part of `pop_snake_tail`; the `length == 0` underflow fault is
checked in `SnakeGame.pop_snake_tail`. -/
def SnakeGame.popState (s : SnakeGame) : SnakeGame :=
  { s with
    tail_index := SnakeGame.wrapping_offset s.tail_index 1,
    map := Function.update s.map (s.hashed_positions s.tail_index) CELL_EMPTY,
    length := s.length - 1 }

def SnakeGame.pop_snake_tail (s : SnakeGame) : Option (SnakeGame × Nat) :=
  if s.length = 0 then none
  else some (s.popState, s.hashed_positions s.tail_index)

def SnakeGame.push_snake_head (s : SnakeGame) (head_hash : Nat) : SnakeGame :=
  let new_head_index := s.indices head_hash
  let relocate_from_index := SnakeGame.wrapping_offset s.tail_index s.length
  let relocate_from_hash := s.hashed_positions relocate_from_index
  { s with
    hashed_positions :=
      Function.update
        (Function.update s.hashed_positions new_head_index relocate_from_hash)
        relocate_from_index head_hash,
    indices :=
      Function.update (Function.update s.indices head_hash relocate_from_index)
        relocate_from_hash new_head_index,
    map := Function.update s.map head_hash CELL_SNAKE,
    length := s.length + 1 }

/-- Hash of the current head tile, `hashed_positions[(tail + length - 1) % MAP_SIZE]`. -/
def headHash (s : SnakeGame) : Nat :=
  s.hashed_positions (SnakeGame.wrapping_offset s.tail_index (s.length - 1))

def headPos (s : SnakeGame) : Position :=
  Position.from_hash (headHash s)

/-- Candidate head coordinate: current head plus the remembered direction. -/
def newHeadPos (s : SnakeGame) : Position :=
  ⟨(headPos s).x + s.direction.x, (headPos s).y + s.direction.y⟩

def offBoard (p : Position) : Prop :=
  (MAP_SIDE_LENGTH : Int) ≤ p.x ∨ p.x < 0 ∨ (MAP_SIDE_LENGTH : Int) ≤ p.y ∨ p.y < 0

instance offBoardDecidable (p : Position) : Decidable (offBoard p) := by
  unfold offBoard
  infer_instance

/-- The tick transition after the direction-input handling of `update`
(everything from the `Ready` early return on). -/
def SnakeGame.updateCore (s : SnakeGame) (r : Nat) : Option (SnakeGame × Nat) :=
  if s.direction = DIRECTION_NONE then some (s, STATE_READY)
  else if s.length = 0 then none
  else
    let new_head_position := newHeadPos s
    if offBoard new_head_position then some (s, STATE_OVER)
    else
      let new_head_hash := new_head_position.as_hash
      if s.map new_head_hash = CELL_EMPTY then
        match s.pop_snake_tail with
        | none => none
        | some (s1, _) => some (s1.push_snake_head new_head_hash, STATE_RUN)
      else if s.map new_head_hash = CELL_FOOD then
        if MAP_SIZE - 1 ≤ s.length then some (s, STATE_OVER)
        else
          match (s.push_snake_head new_head_hash).generate_food r with
          | none => none
          | some s2 => some (s2, STATE_RUN)
      else if s.map new_head_hash = CELL_SNAKE then some (s, STATE_OVER)
      else none

/-- Direction-input handling: a non-null requested direction overwrites the
remembered one, with no reversal check. -/
def applyDir (s : SnakeGame) (d : Position) : SnakeGame :=
  if d ≠ DIRECTION_NONE then { s with direction := d } else s

def SnakeGame.update (s : SnakeGame) (d : Position) (r : Nat) : Option (SnakeGame × Nat) :=
  (applyDir s d).updateCore r

/-- The direction in effect after the input handling of this tick. -/
def effDir (s : SnakeGame) (d : Position) : Position :=
  (applyDir s d).direction

/-- The candidate head coordinate computed by the tick `update s d r`. -/
def candidate (s : SnakeGame) (d : Position) : Position :=
  newHeadPos (applyDir s d)

/-- Successor state of a tick (the input state if the tick faulted). -/
def nextState (s : SnakeGame) (d : Position) (r : Nat) : SnakeGame :=
  ((s.update d r).getD (s, STATE_READY)).1

def initialSeed : SnakeGame :=
  { direction := DIRECTION_NONE, map := fun _ => CELL_EMPTY, tail_index := 0,
    length := 0, hashed_positions := fun i => i, indices := fun i => i }

def SNAKE_POSITION : Position :=
  ⟨(MAP_SIDE_LENGTH / 2 : Nat), (MAP_SIDE_LENGTH / 2 : Nat)⟩

def seededGame : SnakeGame :=
  SnakeGame.push_snake_head
    { initialSeed with tail_index := SNAKE_POSITION.as_hash } SNAKE_POSITION.as_hash

/-- `SnakeGame::default()`: seed the snake at the board center, then place the
initial food.  The `getD` fallback is dead code: the seeded board has 255 free
slots, so `generate_food` cannot fault there. -/
def defaultGame (r : Nat) : SnakeGame :=
  (seededGame.generate_food r).getD seededGame

/-- The cell index receiving the initial food when the constructor's random
draw is `r`. -/
def foodCell (r : Nat) : Nat := (137 + r % 255) % 256

def LegalDir (d : Position) : Prop :=
  d = DIRECTION_NONE ∨ d = DIRECTION_UP ∨ d = DIRECTION_DOWN ∨
    d = DIRECTION_LEFT ∨ d = DIRECTION_RIGHT

instance legalDirDecidable (d : Position) : Decidable (LegalDir d) := by
  unfold LegalDir
  infer_instance

/-- States reachable from the constructor through ticks (with legal direction
inputs) none of which has returned `Over`. -/
inductive Reachable : SnakeGame → Prop where
  | init : ∀ r, Reachable (defaultGame r)
  | step : ∀ s d r s' c, Reachable s → LegalDir d → s.update d r = some (s', c) →
      c ≠ STATE_OVER → Reachable s'

/-- The driving loop of `main`, restricted to the core: feed the listed
direction inputs (with their RNG oracles) tick by tick, incrementing
`moves_count` once per `Running` result and stopping at `Over`. -/
def playLoop : SnakeGame → Nat → List (Position × Nat) → Option (SnakeGame × Nat)
  | s, moves_count, [] => some (s, moves_count)
  | s, moves_count, (d, r) :: rest =>
    match s.update d r with
    | none => none
    | some (s', c) =>
      if c = STATE_OVER then some (s', moves_count)
      else if c = STATE_RUN then playLoop s' (moves_count + 1) rest
      else if c = STATE_READY then playLoop s' moves_count rest
      else none

/-- Circular distance from slot `t` forward to slot `i`. -/
def ringOffset (t i : Nat) : Nat := (i + MAP_SIZE - t) % MAP_SIZE

/-- Slot `i` lies in the occupied span of the ring: the `length` slots
starting at `tail_index`, circularly. -/
def inRingSlot (s : SnakeGame) (i : Nat) : Prop :=
  ringOffset s.tail_index i < s.length

/-- Cell `h` is held in one of the `length` occupied ring slots. -/
def ringContains (s : SnakeGame) (h : Nat) : Prop :=
  ∃ k, k < s.length ∧ s.hashed_positions (SnakeGame.wrapping_offset s.tail_index k) = h

/-- Cell `h` is held in one of the `MAP_SIZE - length` free slots. -/
def freeContains (s : SnakeGame) (h : Nat) : Prop :=
  ∃ j, j < MAP_SIZE - s.length ∧
    s.hashed_positions
      (SnakeGame.wrapping_offset (SnakeGame.wrapping_offset s.tail_index s.length) j) = h

def freeCount (s : SnakeGame) : Nat := MAP_SIZE - s.length

/-- `hashed_positions` and `indices` are mutually inverse self-maps of
`[0, MAP_SIZE)`. -/
structure PermInv (s : SnakeGame) : Prop where
  hp_lt : ∀ i, i < MAP_SIZE → s.hashed_positions i < MAP_SIZE
  idx_lt : ∀ h, h < MAP_SIZE → s.indices h < MAP_SIZE
  idx_hp : ∀ i, i < MAP_SIZE → s.indices (s.hashed_positions i) = i
  hp_idx : ∀ h, h < MAP_SIZE → s.hashed_positions (s.indices h) = h

/-- The inductive game invariant: permutation consistency, index bounds, and
the occupancy partition between the map and the ring. -/
structure GameInv (s : SnakeGame) extends PermInv s : Prop where
  tail_lt : s.tail_index < MAP_SIZE
  len_pos : 1 ≤ s.length
  len_lt : s.length < MAP_SIZE
  snake_iff : ∀ h, h < MAP_SIZE → (s.map h = CELL_SNAKE ↔ inRingSlot s (s.indices h))
  cell_valid : ∀ h, h < MAP_SIZE →
    s.map h = CELL_EMPTY ∨ s.map h = CELL_FOOD ∨ s.map h = CELL_SNAKE
  food_unique : ∀ h h', h < MAP_SIZE → h' < MAP_SIZE →
    s.map h = CELL_FOOD → s.map h' = CELL_FOOD → h = h'

/-- The part of `GameInv` preserved through the intermediate states inside a
tick (after the tail pop the length may be zero and the food may be gone, but
permutation consistency and the snake/ring correspondence persist). -/
structure RingInv (s : SnakeGame) extends PermInv s : Prop where
  tail_lt : s.tail_index < MAP_SIZE
  snake_iff : ∀ h, h < MAP_SIZE → (s.map h = CELL_SNAKE ↔ inRingSlot s (s.indices h))

def gameA : SnakeGame := defaultGame 0

def gameB : SnakeGame := nextState gameA DIRECTION_RIGHT 0

/-- A board with all but one cell occupied by the snake and the food on the
last cell, used to exercise the board-full guard. -/
def fullBoard : SnakeGame :=
  { direction := DIRECTION_RIGHT,
    map := fun h => if h = 255 then CELL_FOOD else CELL_SNAKE,
    tail_index := 0, length := 255,
    hashed_positions := fun i => i, indices := fun i => i }

/-- Play `n` ticks of `Up` from the seed-0 start. -/
def upChain : Nat → SnakeGame
  | 0 => defaultGame 0
  | n + 1 => nextState (upChain n) DIRECTION_UP 0

/-! ### Basic arithmetic and frame lemmas -/

theorem MS_eq : MAP_SIZE = 256 := rfl

theorem MS_pos : 0 < MAP_SIZE := by decide

theorem wrapping_lt (b o : Nat) : SnakeGame.wrapping_offset b o < MAP_SIZE :=
  Nat.mod_lt _ MS_pos

theorem wrapping_def (b o : Nat) : SnakeGame.wrapping_offset b o = (b + o) % 256 := rfl

theorem ringOffset_def (t i : Nat) : ringOffset t i = (i + 256 - t) % 256 := rfl

theorem ringOffset_wrapping (t k : Nat) (ht : t < MAP_SIZE) (hk : k < MAP_SIZE) :
    ringOffset t (SnakeGame.wrapping_offset t k) = k := by
  rw [ringOffset_def, wrapping_def]
  rw [MS_eq] at ht hk
  omega

theorem as_hash_lt (p : Position) (h : ¬ offBoard p) : p.as_hash < MAP_SIZE := by
  unfold offBoard at h
  push_neg at h
  unfold Position.as_hash MAP_SIDE_LENGTH at *
  rw [MS_eq]
  omega

theorem push_hp (s : SnakeGame) (hh i : Nat) :
    (s.push_snake_head hh).hashed_positions i =
      if i = SnakeGame.wrapping_offset s.tail_index s.length then hh
      else if i = s.indices hh then
        s.hashed_positions (SnakeGame.wrapping_offset s.tail_index s.length)
      else s.hashed_positions i := by
  simp only [SnakeGame.push_snake_head, Function.update_apply]

theorem push_idx (s : SnakeGame) (hh g : Nat) :
    (s.push_snake_head hh).indices g =
      if g = s.hashed_positions (SnakeGame.wrapping_offset s.tail_index s.length) then
        s.indices hh
      else if g = hh then SnakeGame.wrapping_offset s.tail_index s.length
      else s.indices g := by
  simp only [SnakeGame.push_snake_head, Function.update_apply]

theorem push_map (s : SnakeGame) (hh g : Nat) :
    (s.push_snake_head hh).map g = if g = hh then CELL_SNAKE else s.map g := by
  simp only [SnakeGame.push_snake_head, Function.update_apply]

theorem push_tail (s : SnakeGame) (hh : Nat) :
    (s.push_snake_head hh).tail_index = s.tail_index := rfl

theorem push_len (s : SnakeGame) (hh : Nat) :
    (s.push_snake_head hh).length = s.length + 1 := rfl

theorem push_dir (s : SnakeGame) (hh : Nat) :
    (s.push_snake_head hh).direction = s.direction := rfl

theorem pop_map (s : SnakeGame) (g : Nat) :
    s.popState.map g =
      if g = s.hashed_positions s.tail_index then CELL_EMPTY else s.map g := by
  simp only [SnakeGame.popState, Function.update_apply]

theorem pop_tail (s : SnakeGame) :
    s.popState.tail_index = SnakeGame.wrapping_offset s.tail_index 1 := rfl

theorem pop_len (s : SnakeGame) : s.popState.length = s.length - 1 := rfl

theorem pop_hp (s : SnakeGame) : s.popState.hashed_positions = s.hashed_positions := rfl

theorem pop_idx (s : SnakeGame) : s.popState.indices = s.indices := rfl

theorem pop_dir (s : SnakeGame) : s.popState.direction = s.direction := rfl

theorem applyDir_map (s : SnakeGame) (d : Position) : (applyDir s d).map = s.map := by
  unfold applyDir; split <;> rfl

theorem applyDir_tail (s : SnakeGame) (d : Position) :
    (applyDir s d).tail_index = s.tail_index := by
  unfold applyDir; split <;> rfl

theorem applyDir_len (s : SnakeGame) (d : Position) :
    (applyDir s d).length = s.length := by
  unfold applyDir; split <;> rfl

theorem applyDir_hp (s : SnakeGame) (d : Position) :
    (applyDir s d).hashed_positions = s.hashed_positions := by
  unfold applyDir; split <;> rfl

theorem applyDir_idx (s : SnakeGame) (d : Position) :
    (applyDir s d).indices = s.indices := by
  unfold applyDir; split <;> rfl

/-! ### Permutation invariant preservation -/

theorem permInv_push (s : SnakeGame) (hh : Nat) (hP : PermInv s) (hhlt : hh < MAP_SIZE) :
    PermInv (s.push_snake_head hh) := by
  obtain ⟨hpl, hil, hih, hhi⟩ := hP
  set b := SnakeGame.wrapping_offset s.tail_index s.length with hb
  have hblt : b < MAP_SIZE := wrapping_lt _ _
  have halt : s.indices hh < MAP_SIZE := hil hh hhlt
  have hrfh : s.hashed_positions b < MAP_SIZE := hpl b hblt
  constructor
  · intro i hi
    rw [push_hp]
    split
    · exact hhlt
    · split
      · exact hrfh
      · exact hpl i hi
  · intro g hg
    rw [push_idx]
    split
    · exact halt
    · split
      · exact hblt
      · exact hil g hg
  · intro i hi
    rw [push_hp]
    by_cases h1 : i = b
    · rw [if_pos h1, push_idx]
      by_cases h2 : hh = s.hashed_positions b
      · rw [if_pos h2, h2, hih b hblt, h1]
      · rw [if_neg h2, if_pos rfl, h1]
    · rw [if_neg h1]
      by_cases h2 : i = s.indices hh
      · rw [if_pos h2, push_idx, if_pos rfl, h2]
      · rw [if_neg h2, push_idx]
        have e1 : s.hashed_positions i ≠ s.hashed_positions b := by
          intro e
          have e' := congrArg s.indices e
          rw [hih i hi, hih b hblt] at e'
          exact h1 e'
        have e2 : s.hashed_positions i ≠ hh := by
          intro e
          have e' := congrArg s.indices e
          rw [hih i hi] at e'
          exact h2 e'
        rw [if_neg e1, if_neg e2]
        exact hih i hi
  · intro g hg
    rw [push_idx]
    by_cases h1 : g = s.hashed_positions b
    · rw [if_pos h1, push_hp]
      by_cases h2 : s.indices hh = b
      · rw [if_pos h2, h1]
        have e' := congrArg s.hashed_positions h2
        rw [hhi hh hhlt] at e'
        exact e'
      · rw [if_neg h2, if_pos rfl, h1]
    · rw [if_neg h1]
      by_cases h2 : g = hh
      · rw [if_pos h2, push_hp, if_pos rfl, h2]
      · rw [if_neg h2, push_hp]
        have e1 : s.indices g ≠ b := by
          intro e
          have e' := congrArg s.hashed_positions e
          rw [hhi g hg] at e'
          exact h1 e'
        have e2 : s.indices g ≠ s.indices hh := by
          intro e
          have e' := congrArg s.hashed_positions e
          rw [hhi g hg, hhi hh hhlt] at e'
          exact h2 e'
        rw [if_neg e1, if_neg e2]
        exact hhi g hg

theorem permInv_pop (s : SnakeGame) (hP : PermInv s) : PermInv s.popState :=
  ⟨hP.hp_lt, hP.idx_lt, hP.idx_hp, hP.hp_idx⟩

theorem generate_food_some (s s' : SnakeGame) (r : Nat)
    (h : s.generate_food r = some s') :
    ∃ fh, s.random_food_hashed_position r = some fh ∧
      s' = { s with map := Function.update s.map fh CELL_FOOD } := by
  unfold SnakeGame.generate_food at h
  cases hr : s.random_food_hashed_position r with
  | none => rw [hr] at h; simp at h
  | some fh =>
    rw [hr] at h
    simp only [Option.map_some', Option.some.injEq] at h
    exact ⟨fh, rfl, h.symm⟩

theorem permInv_generate (s s' : SnakeGame) (r : Nat) (hP : PermInv s)
    (h : s.generate_food r = some s') : PermInv s' := by
  obtain ⟨fh, _, rfl⟩ := generate_food_some s s' r h
  exact ⟨hP.hp_lt, hP.idx_lt, hP.idx_hp, hP.hp_idx⟩

theorem permInv_applyDir (s : SnakeGame) (d : Position) (hP : PermInv s) :
    PermInv (applyDir s d) := by
  unfold applyDir
  split
  · exact ⟨hP.hp_lt, hP.idx_lt, hP.idx_hp, hP.hp_idx⟩
  · exact hP

/-! ### Ring/occupancy invariant preservation -/

theorem snake_tail_cell (s : SnakeGame) (hI : GameInv s) :
    s.map (s.hashed_positions s.tail_index) = CELL_SNAKE := by
  rw [hI.snake_iff _ (hI.hp_lt _ hI.tail_lt), hI.idx_hp s.tail_index hI.tail_lt]
  unfold inRingSlot
  rw [ringOffset_def]
  have h1 := hI.tail_lt
  have h2 := hI.len_pos
  rw [MS_eq] at h1
  omega

theorem ringInv_pop (s : SnakeGame) (hI : GameInv s) : RingInv s.popState := by
  have ht := hI.tail_lt
  have hL1 := hI.len_pos
  have hL2 := hI.len_lt
  rw [MS_eq] at ht hL2
  refine ⟨permInv_pop s hI.toPermInv, ?_, ?_⟩
  · rw [pop_tail]; exact wrapping_lt _ _
  · intro g hg
    rw [pop_map, pop_idx]
    unfold inRingSlot
    rw [pop_tail, pop_len, ringOffset_def, wrapping_def]
    by_cases hgth : g = s.hashed_positions s.tail_index
    · rw [if_pos hgth]
      have hidx : s.indices g = s.tail_index := by
        rw [hgth]; exact hI.idx_hp _ hI.tail_lt
      rw [hidx]
      constructor
      · intro h; exact absurd h (by decide)
      · intro h; exfalso; omega
    · rw [if_neg hgth]
      have hold := hI.snake_iff g hg
      unfold inRingSlot at hold
      rw [ringOffset_def] at hold
      have hidxlt := hI.idx_lt g hg
      rw [MS_eq] at hidxlt
      have hidxne : s.indices g ≠ s.tail_index := by
        intro e
        apply hgth
        have e' := congrArg s.hashed_positions e
        rw [hI.hp_idx g hg] at e'
        exact e'
      rw [hold]
      omega

theorem ringInv_push (s : SnakeGame) (hR : RingInv s) (hLlt : s.length < MAP_SIZE)
    (nh : Nat) (hnh : nh < MAP_SIZE) (hns : s.map nh ≠ CELL_SNAKE) :
    RingInv (s.push_snake_head nh) := by
  have ht := hR.tail_lt
  have hL := hLlt
  have hnh' := hnh
  rw [MS_eq] at ht hL hnh'
  have hBlt : SnakeGame.wrapping_offset s.tail_index s.length < MAP_SIZE := wrapping_lt _ _
  have hB := wrapping_def s.tail_index s.length
  have hAlt := hR.idx_lt nh hnh
  rw [MS_eq] at hAlt
  have hRlt := hR.hp_lt _ hBlt
  rw [MS_eq] at hRlt
  have hidxR : s.indices
      (s.hashed_positions (SnakeGame.wrapping_offset s.tail_index s.length)) =
      SnakeGame.wrapping_offset s.tail_index s.length := hR.idx_hp _ hBlt
  have hA_ge : s.length ≤ ringOffset s.tail_index (s.indices nh) := by
    by_contra hc
    exact hns ((hR.snake_iff nh hnh).mpr (by unfold inRingSlot; omega))
  rw [ringOffset_def] at hA_ge
  refine ⟨permInv_push s nh hR.toPermInv hnh, ?_, ?_⟩
  · rw [push_tail]; exact hR.tail_lt
  · intro g hg
    have hg' := hg
    rw [MS_eq] at hg'
    rw [push_map, push_idx]
    unfold inRingSlot
    rw [push_tail, push_len, ringOffset_def]
    have hold := hR.snake_iff g hg
    unfold inRingSlot at hold
    rw [ringOffset_def] at hold
    have hidxglt := hR.idx_lt g hg
    rw [MS_eq] at hidxglt
    by_cases hg1 : g = nh
    · rw [if_pos hg1]
      apply iff_of_true rfl
      by_cases h2 : g = s.hashed_positions (SnakeGame.wrapping_offset s.tail_index s.length)
      · rw [if_pos h2]
        have hAB : s.indices nh = SnakeGame.wrapping_offset s.tail_index s.length := by
          rw [← hg1, h2]
          exact hidxR
        rw [hAB, hB]
        omega
      · rw [if_neg h2, if_pos hg1, hB]
        omega
    · rw [if_neg hg1]
      by_cases h2 : g = s.hashed_positions (SnakeGame.wrapping_offset s.tail_index s.length)
      · rw [if_pos h2]
        apply iff_of_false
        · rw [h2]
          intro hmapR
          have hin := (hR.snake_iff _ (hR.hp_lt _ hBlt)).mp hmapR
          unfold inRingSlot at hin
          rw [ringOffset_def, hidxR, hB] at hin
          omega
        · intro hlt
          have hAB : s.indices nh ≠ SnakeGame.wrapping_offset s.tail_index s.length := by
            intro e
            apply hg1
            rw [h2]
            have e' := congrArg s.hashed_positions e
            rw [hR.hp_idx nh hnh] at e'
            exact e'.symm
          rw [hB] at hAB
          omega
      · rw [if_neg h2, if_neg hg1]
        rw [hold]
        have hne : s.indices g ≠ SnakeGame.wrapping_offset s.tail_index s.length := by
          intro e
          apply h2
          have e' := congrArg s.hashed_positions e
          rw [hR.hp_idx g hg] at e'
          exact e'
        rw [hB] at hne
        omega

theorem ringInv_food (s : SnakeGame) (hR : RingInv s) (fh : Nat)
    (hns : s.map fh ≠ CELL_SNAKE) :
    RingInv { s with map := Function.update s.map fh CELL_FOOD } := by
  have hmap : ∀ g, ({ s with map := Function.update s.map fh CELL_FOOD } : SnakeGame).map g =
      if g = fh then CELL_FOOD else s.map g := fun g => Function.update_apply _ _ _ _
  refine ⟨⟨hR.hp_lt, hR.idx_lt, hR.idx_hp, hR.hp_idx⟩, hR.tail_lt, ?_⟩
  intro g hg
  rw [hmap g]
  by_cases h : g = fh
  · rw [if_pos h]
    constructor
    · intro e; exact absurd e (by decide)
    · intro hin
      exfalso
      apply hns
      rw [← h]
      exact (hR.snake_iff g hg).mpr hin
  · rw [if_neg h]
    exact hR.snake_iff g hg

/-! ### Full invariant preservation through the two `Running` branches -/

theorem random_food_eq (s : SnakeGame) (r : Nat) (hne : ¬ (MAP_SIZE - s.length = 0)) :
    s.random_food_hashed_position r = some (s.hashed_positions
      (SnakeGame.wrapping_offset (SnakeGame.wrapping_offset s.tail_index s.length)
        (r % (MAP_SIZE - s.length)))) := by
  unfold SnakeGame.random_food_hashed_position
  simp only [if_neg hne]

theorem inv_move (s : SnakeGame) (hI : GameInv s) (nh : Nat) (hnh : nh < MAP_SIZE)
    (hemp : s.map nh = CELL_EMPTY) :
    GameInv (s.popState.push_snake_head nh) := by
  have hth := snake_tail_cell s hI
  have hnhth : nh ≠ s.hashed_positions s.tail_index := by
    intro e
    rw [e, hth] at hemp
    exact absurd hemp (by decide)
  have hpop := ringInv_pop s hI
  have hpoplen : s.popState.length < MAP_SIZE := by
    rw [pop_len]
    have h1 := hI.len_lt
    have h2 := hI.len_pos
    omega
  have hns2 : s.popState.map nh ≠ CELL_SNAKE := by
    rw [pop_map, if_neg hnhth, hemp]
    decide
  have hpush := ringInv_push s.popState hpop hpoplen nh hnh hns2
  refine ⟨hpush.toPermInv, hpush.tail_lt, ?_, ?_, hpush.snake_iff, ?_, ?_⟩
  · rw [push_len]
    omega
  · rw [push_len, pop_len]
    have h1 := hI.len_lt
    have h2 := hI.len_pos
    omega
  · intro g hg
    rw [push_map, pop_map]
    by_cases h1 : g = nh
    · rw [if_pos h1]
      right; right; rfl
    rw [if_neg h1]
    by_cases h2 : g = s.hashed_positions s.tail_index
    · rw [if_pos h2]
      left; rfl
    rw [if_neg h2]
    exact hI.cell_valid g hg
  · intro g g' hg hg' hf hf'
    rw [push_map, pop_map] at hf hf'
    by_cases h1 : g = nh
    · rw [if_pos h1] at hf
      exact absurd hf (by decide)
    rw [if_neg h1] at hf
    by_cases h2 : g = s.hashed_positions s.tail_index
    · rw [if_pos h2] at hf
      exact absurd hf (by decide)
    rw [if_neg h2] at hf
    by_cases h3 : g' = nh
    · rw [if_pos h3] at hf'
      exact absurd hf' (by decide)
    rw [if_neg h3] at hf'
    by_cases h4 : g' = s.hashed_positions s.tail_index
    · rw [if_pos h4] at hf'
      exact absurd hf' (by decide)
    rw [if_neg h4] at hf'
    exact hI.food_unique g g' hg hg' hf hf'

theorem inv_grow (s : SnakeGame) (hI : GameInv s) (nh : Nat) (hnh : nh < MAP_SIZE)
    (hfood : s.map nh = CELL_FOOD) (hguard : ¬ (MAP_SIZE - 1 ≤ s.length)) (r : Nat) :
    ∃ s', (s.push_snake_head nh).generate_food r = some s' ∧ GameInv s' ∧
      s'.length = s.length + 1 ∧ s'.map nh = CELL_SNAKE := by
  have hMSpos := MS_pos
  have hns : s.map nh ≠ CELL_SNAKE := by
    rw [hfood]; decide
  have hRs : RingInv s := ⟨hI.toPermInv, hI.tail_lt, hI.snake_iff⟩
  set s2 := s.push_snake_head nh with hs2def
  have hpush : RingInv s2 := ringInv_push s hRs hI.len_lt nh hnh hns
  have hlen2 : s2.length = s.length + 1 := push_len s nh
  have htail2 : s2.tail_index = s.tail_index := push_tail s nh
  have helen : ¬ (MAP_SIZE - s2.length = 0) := by
    rw [hlen2]
    omega
  have hσlt : SnakeGame.wrapping_offset
      (SnakeGame.wrapping_offset s2.tail_index s2.length)
      (r % (MAP_SIZE - s2.length)) < MAP_SIZE := wrapping_lt _ _
  set σ := SnakeGame.wrapping_offset
      (SnakeGame.wrapping_offset s2.tail_index s2.length)
      (r % (MAP_SIZE - s2.length)) with hσdef
  set F := s2.hashed_positions σ with hFdef
  have hFlt : F < MAP_SIZE := hpush.hp_lt σ hσlt
  have hidxF : s2.indices F = σ := hpush.idx_hp σ hσlt
  have hσoff : ¬ inRingSlot s2 σ := by
    unfold inRingSlot
    rw [hσdef, htail2, hlen2, ringOffset_def, wrapping_def, wrapping_def]
    have ht := hI.tail_lt
    have hL := hI.len_lt
    rw [MS_eq] at ht hL hguard ⊢
    have hj : r % (256 - (s.length + 1)) < 256 - (s.length + 1) := by
      apply Nat.mod_lt
      omega
    omega
  have hFns : s2.map F ≠ CELL_SNAKE := by
    intro hmapF
    have hin := (hpush.snake_iff F hFlt).mp hmapF
    rw [hidxF] at hin
    exact hσoff hin
  have hrand : s2.random_food_hashed_position r = some F := random_food_eq s2 r helen
  have hgen : s2.generate_food r =
      some { s2 with map := Function.update s2.map F CELL_FOOD } := by
    unfold SnakeGame.generate_food
    rw [hrand]
    rfl
  have hfoodInv : RingInv { s2 with map := Function.update s2.map F CELL_FOOD } :=
    ringInv_food s2 hpush F hFns
  have hs3map : ∀ g, ({ s2 with map := Function.update s2.map F CELL_FOOD } : SnakeGame).map g =
      if g = F then CELL_FOOD else s2.map g := fun g => Function.update_apply _ _ _ _
  have hFnh : F ≠ nh := by
    intro e
    apply hFns
    rw [e, hs2def, push_map, if_pos rfl]
  refine ⟨_, hgen, ⟨hfoodInv.toPermInv, hfoodInv.tail_lt, ?_, ?_, hfoodInv.snake_iff, ?_, ?_⟩, ?_, ?_⟩
  · show 1 ≤ s2.length
    omega
  · show s2.length < MAP_SIZE
    omega
  · intro g hg
    rw [hs3map g]
    by_cases h1 : g = F
    · rw [if_pos h1]
      right; left; rfl
    rw [if_neg h1, hs2def, push_map]
    by_cases h2 : g = nh
    · rw [if_pos h2]
      right; right; rfl
    rw [if_neg h2]
    exact hI.cell_valid g hg
  · intro g g' hg hg' hf hf'
    have key : ∀ h, h < MAP_SIZE →
        ({ s2 with map := Function.update s2.map F CELL_FOOD } : SnakeGame).map h = CELL_FOOD →
        h = F := by
      intro h hh hfh
      rw [hs3map h] at hfh
      by_cases h1 : h = F
      · exact h1
      rw [if_neg h1, hs2def, push_map] at hfh
      by_cases h2 : h = nh
      · rw [if_pos h2] at hfh
        exact absurd hfh (by decide)
      rw [if_neg h2] at hfh
      exact absurd (hI.food_unique h nh hh hnh hfh hfood) h2
    rw [key g hg hf, key g' hg' hf']
  · exact hlen2
  · rw [hs3map nh, if_neg (fun e => hFnh e.symm), hs2def, push_map, if_pos rfl]

/-! ### Constructor state and its invariant -/

theorem seeded_hp (i : Nat) : seededGame.hashed_positions i = i := by
  simp [seededGame, initialSeed, SnakeGame.push_snake_head, Function.update_apply,
    SNAKE_POSITION, Position.as_hash, SnakeGame.wrapping_offset, MAP_SIDE_LENGTH, MAP_SIZE]

theorem seeded_idx (i : Nat) : seededGame.indices i = i := by
  simp [seededGame, initialSeed, SnakeGame.push_snake_head, Function.update_apply,
    SNAKE_POSITION, Position.as_hash, SnakeGame.wrapping_offset, MAP_SIDE_LENGTH, MAP_SIZE]

theorem seeded_map (g : Nat) :
    seededGame.map g = if g = 136 then CELL_SNAKE else CELL_EMPTY := by
  simp [seededGame, initialSeed, SnakeGame.push_snake_head, Function.update_apply,
    SNAKE_POSITION, Position.as_hash, MAP_SIDE_LENGTH]

theorem seeded_tail : seededGame.tail_index = 136 := rfl

theorem seeded_len : seededGame.length = 1 := rfl

theorem seeded_dir : seededGame.direction = DIRECTION_NONE := rfl

theorem foodCell_lt (r : Nat) : foodCell r < 256 := Nat.mod_lt _ (by norm_num)

theorem foodCell_ne (r : Nat) : foodCell r ≠ 136 := by
  unfold foodCell
  have h := Nat.mod_lt r (show 0 < 255 by norm_num)
  omega

theorem default_eq (r : Nat) : defaultGame r =
    { seededGame with map := Function.update seededGame.map (foodCell r) CELL_FOOD } := by
  have h1 : seededGame.random_food_hashed_position r = some (foodCell r) := by
    rw [random_food_eq seededGame r (by decide)]
    congr 1
    rw [seeded_hp]
    show SnakeGame.wrapping_offset (SnakeGame.wrapping_offset 136 1) (r % 255) = foodCell r
    rw [wrapping_def, wrapping_def]
    unfold foodCell
    omega
  unfold defaultGame SnakeGame.generate_food
  rw [h1]
  rfl

theorem default_map (r g : Nat) : (defaultGame r).map g =
    if g = foodCell r then CELL_FOOD else if g = 136 then CELL_SNAKE else CELL_EMPTY := by
  rw [default_eq]
  show Function.update seededGame.map (foodCell r) CELL_FOOD g = _
  rw [Function.update_apply, seeded_map]

theorem default_hp (r i : Nat) : (defaultGame r).hashed_positions i = i := by
  rw [default_eq]
  exact seeded_hp i

theorem default_idx (r i : Nat) : (defaultGame r).indices i = i := by
  rw [default_eq]
  exact seeded_idx i

theorem default_tail (r : Nat) : (defaultGame r).tail_index = 136 := by
  rw [default_eq]
  rfl

theorem default_len (r : Nat) : (defaultGame r).length = 1 := by
  rw [default_eq]
  rfl

theorem default_dir (r : Nat) : (defaultGame r).direction = DIRECTION_NONE := by
  rw [default_eq]
  rfl

theorem inv_default (r : Nat) : GameInv (defaultGame r) := by
  have hf1 := foodCell_lt r
  have hf2 := foodCell_ne r
  refine ⟨⟨?_, ?_, ?_, ?_⟩, ?_, ?_, ?_, ?_, ?_, ?_⟩
  · intro i hi
    rw [default_hp]
    exact hi
  · intro g hg
    rw [default_idx]
    exact hg
  · intro i _
    rw [default_hp, default_idx]
  · intro g _
    rw [default_idx, default_hp]
  · rw [default_tail]
    decide
  · rw [default_len]
  · rw [default_len]
    decide
  · intro g hg
    rw [default_map, default_idx]
    unfold inRingSlot
    rw [default_tail, default_len, ringOffset_def]
    have hg' := hg
    rw [MS_eq] at hg'
    by_cases h1 : g = foodCell r
    · rw [if_pos h1]
      constructor
      · intro e
        exact absurd e (by decide)
      · intro e
        exfalso
        subst h1
        omega
    · rw [if_neg h1]
      by_cases h2 : g = 136
      · rw [if_pos h2]
        subst h2
        constructor
        · intro _
          omega
        · intro _
          rfl
      · rw [if_neg h2]
        constructor
        · intro e
          exact absurd e (by decide)
        · intro e
          exfalso
          omega
  · intro g hg
    rw [default_map]
    by_cases h1 : g = foodCell r
    · rw [if_pos h1]
      right; left; rfl
    rw [if_neg h1]
    by_cases h2 : g = 136
    · rw [if_pos h2]
      right; right; rfl
    rw [if_neg h2]
    left; rfl
  · intro g g' hg hg' hf hf'
    rw [default_map] at hf hf'
    by_cases h1 : g = foodCell r
    · by_cases h2 : g' = foodCell r
      · rw [h1, h2]
      · rw [if_neg h2] at hf'
        by_cases h3 : g' = 136
        · rw [if_pos h3] at hf'
          exact absurd hf' (by decide)
        · rw [if_neg h3] at hf'
          exact absurd hf' (by decide)
    · rw [if_neg h1] at hf
      by_cases h3 : g = 136
      · rw [if_pos h3] at hf
        exact absurd hf (by decide)
      · rw [if_neg h3] at hf
        exact absurd hf (by decide)

/-! ### Invariant holds in every reachable state -/

theorem gameInv_applyDir (s : SnakeGame) (d : Position) (hI : GameInv s) :
    GameInv (applyDir s d) := by
  unfold applyDir
  split
  · exact ⟨⟨hI.hp_lt, hI.idx_lt, hI.idx_hp, hI.hp_idx⟩, hI.tail_lt, hI.len_pos, hI.len_lt,
      hI.snake_iff, hI.cell_valid, hI.food_unique⟩
  · exact hI

theorem updateCore_run_inv (s : SnakeGame) (r : Nat) (hI : GameInv s) (s' : SnakeGame) (c : Nat)
    (h : s.updateCore r = some (s', c)) (hc : c ≠ STATE_OVER) : GameInv s' := by
  simp only [SnakeGame.updateCore] at h
  split at h
  next hd =>
    rw [Option.some.injEq, Prod.mk.injEq] at h
    obtain ⟨rfl, rfl⟩ := h
    exact hI
  next hd =>
    split at h
    next hlen0 => simp at h
    next hlen0 =>
      split at h
      next hob =>
        rw [Option.some.injEq, Prod.mk.injEq] at h
        exact absurd h.2.symm hc
      next hob =>
        split at h
        next he =>
          split at h
          next hpop => simp at h
          next s1 th hpop =>
            rw [Option.some.injEq, Prod.mk.injEq] at h
            obtain ⟨rfl, rfl⟩ := h
            rw [SnakeGame.pop_snake_tail, if_neg hlen0, Option.some.injEq,
              Prod.mk.injEq] at hpop
            obtain ⟨h1, _⟩ := hpop
            rw [← h1]
            exact inv_move s hI _ (as_hash_lt _ hob) he
        next he =>
          split at h
          next hf =>
            split at h
            next hguard =>
              rw [Option.some.injEq, Prod.mk.injEq] at h
              exact absurd h.2.symm hc
            next hguard =>
              split at h
              next hgen0 => simp at h
              next s3 hgen =>
                rw [Option.some.injEq, Prod.mk.injEq] at h
                obtain ⟨rfl, rfl⟩ := h
                obtain ⟨s4, hgen4, hinv4, _, _⟩ :=
                  inv_grow s hI _ (as_hash_lt _ hob) hf hguard r
                rw [hgen4, Option.some.injEq] at hgen
                rw [← hgen]
                exact hinv4
          next hf =>
            split at h
            next hsn =>
              rw [Option.some.injEq, Prod.mk.injEq] at h
              exact absurd h.2.symm hc
            next hsn => simp at h

theorem update_run_inv (s : SnakeGame) (d : Position) (r : Nat) (hI : GameInv s)
    (s' : SnakeGame) (c : Nat) (h : s.update d r = some (s', c)) (hc : c ≠ STATE_OVER) :
    GameInv s' :=
  updateCore_run_inv (applyDir s d) r (gameInv_applyDir s d hI) s' c h hc

theorem reachable_inv (s : SnakeGame) (h : Reachable s) : GameInv s := by
  induction h with
  | init r => exact inv_default r
  | step s d r s' c hR hL hup hc ih => exact update_run_inv s d r ih s' c hup hc

/-! ### Evaluation lemmas for the non-mutating tick paths -/

theorem updateCore_ready (s : SnakeGame) (r : Nat) (hd : s.direction = DIRECTION_NONE) :
    s.updateCore r = some (s, STATE_READY) := by
  simp only [SnakeGame.updateCore]
  rw [if_pos hd]

theorem updateCore_off_over (s : SnakeGame) (r : Nat) (hd : s.direction ≠ DIRECTION_NONE)
    (hlen : s.length ≠ 0) (hob : offBoard (newHeadPos s)) :
    s.updateCore r = some (s, STATE_OVER) := by
  simp only [SnakeGame.updateCore]
  rw [if_neg hd, if_neg hlen, if_pos hob]

theorem updateCore_snake_over (s : SnakeGame) (r : Nat) (hd : s.direction ≠ DIRECTION_NONE)
    (hlen : s.length ≠ 0) (hob : ¬ offBoard (newHeadPos s))
    (hsn : s.map (newHeadPos s).as_hash = CELL_SNAKE) :
    s.updateCore r = some (s, STATE_OVER) := by
  have h1 : ¬ (s.map (newHeadPos s).as_hash = CELL_EMPTY) := by
    rw [hsn]; decide
  have h2 : ¬ (s.map (newHeadPos s).as_hash = CELL_FOOD) := by
    rw [hsn]; decide
  simp only [SnakeGame.updateCore]
  rw [if_neg hd, if_neg hlen, if_neg hob, if_neg h1, if_neg h2, if_pos hsn]

theorem updateCore_full_over (s : SnakeGame) (r : Nat) (hd : s.direction ≠ DIRECTION_NONE)
    (hlen : s.length ≠ 0) (hob : ¬ offBoard (newHeadPos s))
    (hfood : s.map (newHeadPos s).as_hash = CELL_FOOD)
    (hguard : MAP_SIZE - 1 ≤ s.length) :
    s.updateCore r = some (s, STATE_OVER) := by
  have h1 : ¬ (s.map (newHeadPos s).as_hash = CELL_EMPTY) := by
    rw [hfood]; decide
  simp only [SnakeGame.updateCore]
  rw [if_neg hd, if_neg hlen, if_neg hob, if_neg h1, if_pos hfood, if_pos hguard]

/-! ### Set-level bridges between ring slots and cell contents -/

theorem ringContains_iff (s : SnakeGame) (hI : GameInv s) (h : Nat) (hh : h < MAP_SIZE) :
    ringContains s h ↔ inRingSlot s (s.indices h) := by
  constructor
  · rintro ⟨k, hk, hhp⟩
    have hklt : k < MAP_SIZE := lt_trans hk hI.len_lt
    have hidx := hI.idx_hp _ (wrapping_lt s.tail_index k)
    rw [hhp] at hidx
    unfold inRingSlot
    rw [hidx, ringOffset_wrapping _ _ hI.tail_lt hklt]
    exact hk
  · intro hin
    unfold inRingSlot at hin
    refine ⟨ringOffset s.tail_index (s.indices h), hin, ?_⟩
    have key : SnakeGame.wrapping_offset s.tail_index
        (ringOffset s.tail_index (s.indices h)) = s.indices h := by
      rw [wrapping_def, ringOffset_def]
      have h1 := hI.tail_lt
      have h2 := hI.idx_lt h hh
      rw [MS_eq] at h1 h2
      omega
    rw [key]
    exact hI.hp_idx h hh

theorem freeContains_iff (s : SnakeGame) (hI : GameInv s) (h : Nat) (hh : h < MAP_SIZE) :
    freeContains s h ↔ ¬ inRingSlot s (s.indices h) := by
  have h1 := hI.tail_lt
  have h2 := hI.idx_lt h hh
  have h3 := hI.len_lt
  rw [MS_eq] at h1 h2 h3
  constructor
  · rintro ⟨j, hj, hhp⟩
    have hidx := hI.idx_hp _ (wrapping_lt (SnakeGame.wrapping_offset s.tail_index s.length) j)
    rw [hhp] at hidx
    unfold inRingSlot
    rw [hidx, wrapping_def, wrapping_def, ringOffset_def]
    rw [MS_eq] at hj
    omega
  · intro hin
    unfold inRingSlot at hin
    refine ⟨ringOffset s.tail_index (s.indices h) - s.length, ?_, ?_⟩
    · rw [ringOffset_def, MS_eq]
      omega
    · have key : SnakeGame.wrapping_offset (SnakeGame.wrapping_offset s.tail_index s.length)
          (ringOffset s.tail_index (s.indices h) - s.length) = s.indices h := by
        rw [wrapping_def, wrapping_def, ringOffset_def]
        rw [ringOffset_def] at hin
        omega
      rw [key]
      exact hI.hp_idx h hh

/-! ### Claim C1: occupancy partition -/

/-- C1 (amended): in every reachable state the Snake-marked cells are exactly
the cells held in the `length` occupied ring slots, the content of the
remaining `MAP_SIZE - length` free slots is exactly the non-Snake cells (the
Empty-marked cells together with the Food cell), at most one cell is marked
Food, and `snake_length + free_count = MAP_SIZE`. -/
theorem occupancy_partition (s : SnakeGame) (hR : Reachable s) :
    (∀ h, h < MAP_SIZE → (s.map h = CELL_SNAKE ↔ ringContains s h)) ∧
    (∀ h, h < MAP_SIZE → (freeContains s h ↔ (s.map h = CELL_EMPTY ∨ s.map h = CELL_FOOD))) ∧
    (∀ h h', h < MAP_SIZE → h' < MAP_SIZE → s.map h = CELL_FOOD → s.map h' = CELL_FOOD → h = h') ∧
    s.length + freeCount s = MAP_SIZE := by
  have hI := reachable_inv s hR
  refine ⟨?_, ?_, hI.food_unique, ?_⟩
  · intro h hh
    rw [hI.snake_iff h hh, ringContains_iff s hI h hh]
  · intro h hh
    rw [freeContains_iff s hI h hh]
    constructor
    · intro hnin
      rcases hI.cell_valid h hh with h1 | h1 | h1
      · exact Or.inl h1
      · exact Or.inr h1
      · exact absurd ((hI.snake_iff h hh).mp h1) hnin
    · intro hor hin
      have hsn := (hI.snake_iff h hh).mpr hin
      rcases hor with h1 | h1 <;> rw [h1] at hsn <;> exact absurd hsn (by decide)
  · unfold freeCount
    have h1 := hI.len_lt
    omega

theorem occupancy_partition_w :
    ((defaultGame 0).map 136 = CELL_SNAKE ↔ ringContains (defaultGame 0) 136) ∧
    (defaultGame 0).length + freeCount (defaultGame 0) = MAP_SIZE :=
  ⟨(occupancy_partition (defaultGame 0) (Reachable.init 0)).1 136 (by decide),
   (occupancy_partition (defaultGame 0) (Reachable.init 0)).2.2.2⟩

/-- C1 counterexample: in the reachable initial state with seed 0 the food
cell 137 lies in a free slot yet is not Empty-marked, so the free-slot
content is not the set of Empty-marked cells. -/
theorem occupancy_partition_cex :
    Reachable (defaultGame 0) ∧ freeContains (defaultGame 0) 137 ∧
    (defaultGame 0).map 137 ≠ CELL_EMPTY :=
  ⟨Reachable.init 0, ⟨0, by decide, by decide⟩, by decide⟩

/-! ### Claim C2: moving into the vacating tail cell -/

theorem reachable_gameB : Reachable gameB :=
  Reachable.step gameA DIRECTION_RIGHT 0 gameB STATE_RUN (Reachable.init 0)
    (by decide) rfl (by decide)

/-- C2 (amended): moving into the cell the tail occupies is a self-collision:
the collision dispatch reads the cell kind before the tail is popped, the tail
cell is still Snake-marked, and the tick returns `Over`, not `Running` (the
pop-before-push ordering holds only inside the Empty branch, which this move
never reaches). -/
theorem tail_cell_move (s : SnakeGame) (d : Position) (r : Nat) (hR : Reachable s)
    (hlen : 2 ≤ s.length) (hd : effDir s d ≠ DIRECTION_NONE)
    (hin : ¬ offBoard (candidate s d))
    (htail : (candidate s d).as_hash = s.hashed_positions s.tail_index) :
    (s.update d r).map Prod.snd = some STATE_OVER := by
  have hI := reachable_inv s hR
  have hsn : (applyDir s d).map (newHeadPos (applyDir s d)).as_hash = CELL_SNAKE := by
    rw [applyDir_map]
    show s.map (candidate s d).as_hash = CELL_SNAKE
    rw [htail]
    exact snake_tail_cell s hI
  have hlen1 : (applyDir s d).length ≠ 0 := by
    rw [applyDir_len]
    omega
  show ((applyDir s d).updateCore r).map Prod.snd = some STATE_OVER
  rw [updateCore_snake_over (applyDir s d) r hd hlen1 hin hsn]
  rfl

theorem tail_cell_move_w :
    (gameB.update DIRECTION_LEFT 0).map Prod.snd = some STATE_OVER :=
  tail_cell_move gameB DIRECTION_LEFT 0 reachable_gameB (by decide) (by decide)
    (by decide) (by decide)

/-- C2 counterexample: `gameB` is reachable (start with seed 0, then one
`Right` tick eats the food at (9,8)), has length 2, and its candidate head
under `Left` is exactly the tail coordinate (8,8), inside the board — yet the
tick returns `Over`, not `Running`. -/
theorem tail_cell_move_cex :
    Reachable gameB ∧ 2 ≤ gameB.length ∧
    effDir gameB DIRECTION_LEFT ≠ DIRECTION_NONE ∧
    ¬ offBoard (candidate gameB DIRECTION_LEFT) ∧
    (candidate gameB DIRECTION_LEFT).as_hash = gameB.hashed_positions gameB.tail_index ∧
    (gameB.update DIRECTION_LEFT 0).map Prod.snd = some STATE_OVER :=
  ⟨reachable_gameB, by decide, by decide, by decide, by decide, by decide⟩

/-! ### Claim C3: termination laws -/

/-- C3: from any reachable state whose effective direction is non-null, a
candidate head outside `[0,16)` on either axis yields `Over` (no wraparound),
and an in-board candidate on a Snake-marked cell yields `Over`. -/
theorem termination_laws (s : SnakeGame) (d : Position) (r : Nat) (hR : Reachable s)
    (hd : effDir s d ≠ DIRECTION_NONE)
    (htrig : offBoard (candidate s d) ∨
      (¬ offBoard (candidate s d) ∧ s.map (candidate s d).as_hash = CELL_SNAKE)) :
    (s.update d r).map Prod.snd = some STATE_OVER := by
  have hI := reachable_inv s hR
  have hlen1 : (applyDir s d).length ≠ 0 := by
    rw [applyDir_len]
    have := hI.len_pos
    omega
  show ((applyDir s d).updateCore r).map Prod.snd = some STATE_OVER
  rcases htrig with hob | ⟨hob, hsn⟩
  · rw [updateCore_off_over (applyDir s d) r hd hlen1 hob]
    rfl
  · have hsn' : (applyDir s d).map (newHeadPos (applyDir s d)).as_hash = CELL_SNAKE := by
      rw [applyDir_map]
      exact hsn
    rw [updateCore_snake_over (applyDir s d) r hd hlen1 hob hsn']
    rfl

/-! ### Claim C4: board-full-on-food atomicity -/

/-- C4: whenever the candidate head cell is Food and the snake occupies all
but one cell (`length = MAP_SIZE - 1`), the tick returns `Over` and the grid
map, ring contents, tail index, length and free structure are all unchanged
(proved for every state with these trigger conditions, hence in particular
for every reachable one). -/
theorem board_full_atomic (s : SnakeGame) (d : Position) (r : Nat)
    (hd : effDir s d ≠ DIRECTION_NONE)
    (hlen : s.length = MAP_SIZE - 1)
    (hin : ¬ offBoard (candidate s d))
    (hfood : s.map (candidate s d).as_hash = CELL_FOOD) :
    s.update d r = some (applyDir s d, STATE_OVER) ∧
    (applyDir s d).map = s.map ∧ (applyDir s d).tail_index = s.tail_index ∧
    (applyDir s d).length = s.length ∧
    (applyDir s d).hashed_positions = s.hashed_positions ∧
    (applyDir s d).indices = s.indices := by
  have hlen1 : (applyDir s d).length ≠ 0 := by
    rw [applyDir_len, hlen]
    decide
  have hfood1 : (applyDir s d).map (newHeadPos (applyDir s d)).as_hash = CELL_FOOD := by
    rw [applyDir_map]
    exact hfood
  have hguard : MAP_SIZE - 1 ≤ (applyDir s d).length := by
    rw [applyDir_len, hlen]
  refine ⟨?_, applyDir_map s d, applyDir_tail s d, applyDir_len s d,
    applyDir_hp s d, applyDir_idx s d⟩
  show (applyDir s d).updateCore r = some (applyDir s d, STATE_OVER)
  exact updateCore_full_over (applyDir s d) r hd hlen1 hin hfood1 hguard

theorem board_full_atomic_w :
    fullBoard.length = MAP_SIZE - 1 ∧
    fullBoard.map (candidate fullBoard DIRECTION_RIGHT).as_hash = CELL_FOOD ∧
    fullBoard.update DIRECTION_RIGHT 0 = some (applyDir fullBoard DIRECTION_RIGHT, STATE_OVER) ∧
    (applyDir fullBoard DIRECTION_RIGHT).map = fullBoard.map :=
  ⟨by decide, by decide,
   (board_full_atomic fullBoard DIRECTION_RIGHT 0 (by decide) (by decide)
      (by decide) (by decide)).1,
   (board_full_atomic fullBoard DIRECTION_RIGHT 0 (by decide) (by decide)
      (by decide) (by decide)).2.1⟩

/-! ### Evaluation lemmas for the mutating tick paths -/

theorem updateCore_empty_run (s : SnakeGame) (r : Nat)
    (hd : s.direction ≠ DIRECTION_NONE) (hlen : s.length ≠ 0)
    (hob : ¬ offBoard (newHeadPos s))
    (hemp : s.map (newHeadPos s).as_hash = CELL_EMPTY) :
    s.updateCore r = some (s.popState.push_snake_head (newHeadPos s).as_hash, STATE_RUN) := by
  simp only [SnakeGame.updateCore]
  rw [if_neg hd, if_neg hlen, if_neg hob, if_pos hemp, SnakeGame.pop_snake_tail, if_neg hlen]

theorem updateCore_food_run (s : SnakeGame) (r : Nat) (s3 : SnakeGame)
    (hd : s.direction ≠ DIRECTION_NONE) (hlen : s.length ≠ 0)
    (hob : ¬ offBoard (newHeadPos s))
    (hfood : s.map (newHeadPos s).as_hash = CELL_FOOD)
    (hguard : ¬ (MAP_SIZE - 1 ≤ s.length))
    (hgen : (s.push_snake_head (newHeadPos s).as_hash).generate_food r = some s3) :
    s.updateCore r = some (s3, STATE_RUN) := by
  have h1 : ¬ (s.map (newHeadPos s).as_hash = CELL_EMPTY) := by
    rw [hfood]; decide
  simp only [SnakeGame.updateCore]
  rw [if_neg hd, if_neg hlen, if_neg hob, if_neg h1, if_pos hfood, if_neg hguard, hgen]

theorem updateCore_direction (s : SnakeGame) (r : Nat) (s' : SnakeGame) (c : Nat)
    (h : s.updateCore r = some (s', c)) : s'.direction = s.direction := by
  simp only [SnakeGame.updateCore] at h
  split at h
  next hd =>
    rw [Option.some.injEq, Prod.mk.injEq] at h
    obtain ⟨rfl, rfl⟩ := h
    rfl
  next hd =>
    split at h
    next => simp at h
    next hlen0 =>
      split at h
      next hob =>
        rw [Option.some.injEq, Prod.mk.injEq] at h
        obtain ⟨rfl, rfl⟩ := h
        rfl
      next hob =>
        split at h
        next he =>
          split at h
          next => simp at h
          next s1 th hpop =>
            rw [Option.some.injEq, Prod.mk.injEq] at h
            obtain ⟨rfl, rfl⟩ := h
            rw [push_dir]
            rw [SnakeGame.pop_snake_tail, if_neg hlen0, Option.some.injEq,
              Prod.mk.injEq] at hpop
            rw [← hpop.1, pop_dir]
        next he =>
          split at h
          next hf =>
            split at h
            next hguard =>
              rw [Option.some.injEq, Prod.mk.injEq] at h
              obtain ⟨rfl, rfl⟩ := h
              rfl
            next hguard =>
              split at h
              next => simp at h
              next s3 hgen =>
                rw [Option.some.injEq, Prod.mk.injEq] at h
                obtain ⟨rfl, rfl⟩ := h
                obtain ⟨fh, _, rfl⟩ := generate_food_some _ _ _ hgen
                exact push_dir s (newHeadPos s).as_hash
          next hf =>
            split at h
            next hsn =>
              rw [Option.some.injEq, Prod.mk.injEq] at h
              obtain ⟨rfl, rfl⟩ := h
              rfl
            next => simp at h

theorem playLoop_cons (s : SnakeGame) (mc : Nat) (d : Position) (r : Nat)
    (rest : List (Position × Nat)) (s' : SnakeGame) (c : Nat)
    (hup : s.update d r = some (s', c)) :
    playLoop s mc ((d, r) :: rest) =
      if c = STATE_OVER then some (s', mc)
      else if c = STATE_RUN then playLoop s' (mc + 1) rest
      else if c = STATE_READY then playLoop s' mc rest
      else none := by
  simp only [playLoop]
  rw [hup]

/-! ### Claim C5: growth law -/

/-- C5 (amended): a `Running` result from a Food collision increases the
snake length by exactly 1 and decreases the total free count by exactly 1
(`snake_length + free_count = MAP_SIZE` is maintained, so the free count
cannot stay unchanged); the newly placed Food cell is never the tile the head
just occupied nor any snake-occupied cell. -/
theorem growth_law (s : SnakeGame) (d : Position) (r : Nat) (s' : SnakeGame)
    (hR : Reachable s) (hup : s.update d r = some (s', STATE_RUN))
    (hfood : s.map (candidate s d).as_hash = CELL_FOOD) :
    s'.length = s.length + 1 ∧ freeCount s = freeCount s' + 1 ∧
    ringContains s' ((candidate s d).as_hash) ∧
    (∀ h, h < MAP_SIZE → s'.map h = CELL_FOOD →
      ¬ ringContains s' h ∧ h ≠ (candidate s d).as_hash) := by
  have hI := reachable_inv s hR
  have hI1 := gameInv_applyDir s d hI
  have hlen1 : (applyDir s d).length ≠ 0 := by
    rw [applyDir_len]
    have := hI.len_pos
    omega
  have hfood1 : (applyDir s d).map (newHeadPos (applyDir s d)).as_hash = CELL_FOOD := by
    rw [applyDir_map]
    exact hfood
  replace hup : (applyDir s d).updateCore r = some (s', STATE_RUN) := hup
  have hd : (applyDir s d).direction ≠ DIRECTION_NONE := by
    intro e
    rw [updateCore_ready _ r e, Option.some.injEq, Prod.mk.injEq] at hup
    exact absurd hup.2 (by decide)
  have hob : ¬ offBoard (newHeadPos (applyDir s d)) := by
    intro e
    rw [updateCore_off_over _ r hd hlen1 e, Option.some.injEq, Prod.mk.injEq] at hup
    exact absurd hup.2 (by decide)
  have hnh : (newHeadPos (applyDir s d)).as_hash < MAP_SIZE := as_hash_lt _ hob
  have hguard : ¬ (MAP_SIZE - 1 ≤ (applyDir s d).length) := by
    intro e
    rw [updateCore_full_over _ r hd hlen1 hob hfood1 e, Option.some.injEq,
      Prod.mk.injEq] at hup
    exact absurd hup.2 (by decide)
  obtain ⟨s4, hgen4, hinv4, hlen4, hmap4⟩ := inv_grow (applyDir s d) hI1 _ hnh hfood1 hguard r
  rw [updateCore_food_run _ r s4 hd hlen1 hob hfood1 hguard hgen4, Option.some.injEq,
    Prod.mk.injEq] at hup
  obtain ⟨rfl, -⟩ := hup
  rw [applyDir_len] at hlen4 hguard
  have hmap4' : s4.map ((candidate s d).as_hash) = CELL_SNAKE := hmap4
  have hnh' : (candidate s d).as_hash < MAP_SIZE := hnh
  refine ⟨hlen4, ?_, ?_, ?_⟩
  · unfold freeCount
    have h1 := hI.len_lt
    omega
  · exact (ringContains_iff s4 hinv4 _ hnh').mpr ((hinv4.snake_iff _ hnh').mp hmap4')
  · intro h hh hf
    have hns : s4.map h ≠ CELL_SNAKE := by
      rw [hf]
      decide
    constructor
    · intro hc
      exact hns ((hinv4.snake_iff h hh).mpr ((ringContains_iff s4 hinv4 h hh).mp hc))
    · intro e
      rw [e, hmap4'] at hf
      exact absurd hf (by decide)

theorem growth_law_w :
    gameB.length = gameA.length + 1 ∧ freeCount gameA = freeCount gameB + 1 ∧
    ringContains gameB ((candidate gameA DIRECTION_RIGHT).as_hash) := by
  have h := growth_law gameA DIRECTION_RIGHT 0 gameB (Reachable.init 0) rfl (by decide)
  exact ⟨h.1, h.2.1, h.2.2.1⟩

/-- C5 counterexample: the first tick from the seed-0 start is a `Running`
food tick (the candidate (9,8) holds the food), the length grows from 1 to 2,
and the free count changes from 255 to 254 — a net change of −1, not 0. -/
theorem growth_law_cex :
    Reachable gameA ∧ gameA.map (candidate gameA DIRECTION_RIGHT).as_hash = CELL_FOOD ∧
    gameA.update DIRECTION_RIGHT 0 = some (gameB, STATE_RUN) ∧
    gameB.length = gameA.length + 1 ∧
    freeCount gameB ≠ freeCount gameA :=
  ⟨Reachable.init 0, by decide, rfl, by decide, by decide⟩

/-! ### Claim C6: fault unreachability -/

/-- C6: from any reachable state, a tick with a legal direction never fires
either contract-violation fault: the tail pop never underflows (`length ≥ 1`
throughout), the random food range is never empty (`MAP_SIZE - length ≥ 1` at
every draw), and the dispatch never reads an invalid cell byte — `update`
always returns `some`. -/
theorem no_faults (s : SnakeGame) (d : Position) (r : Nat) (hR : Reachable s)
    (_hL : LegalDir d) : ∃ out, s.update d r = some out := by
  have hI := reachable_inv s hR
  have hI1 := gameInv_applyDir s d hI
  show ∃ out, (applyDir s d).updateCore r = some out
  by_cases hd : (applyDir s d).direction = DIRECTION_NONE
  · exact ⟨_, updateCore_ready _ r hd⟩
  have hlen1 : (applyDir s d).length ≠ 0 := by
    rw [applyDir_len]
    have := hI.len_pos
    omega
  by_cases hob : offBoard (newHeadPos (applyDir s d))
  · exact ⟨_, updateCore_off_over _ r hd hlen1 hob⟩
  have hnh := as_hash_lt _ hob
  rcases hI1.cell_valid _ hnh with he | hf | hsn
  · exact ⟨_, updateCore_empty_run _ r hd hlen1 hob he⟩
  · by_cases hguard : MAP_SIZE - 1 ≤ (applyDir s d).length
    · exact ⟨_, updateCore_full_over _ r hd hlen1 hob hf hguard⟩
    · obtain ⟨s4, hgen4, -, -, -⟩ := inv_grow (applyDir s d) hI1 _ hnh hf hguard r
      exact ⟨_, updateCore_food_run _ r s4 hd hlen1 hob hf hguard hgen4⟩
  · exact ⟨_, updateCore_snake_over _ r hd hlen1 hob hsn⟩

theorem no_faults_w : ∃ out, gameA.update DIRECTION_UP 0 = some out :=
  no_faults gameA DIRECTION_UP 0 (Reachable.init 0) (by decide)

/-! ### Claim C8: reversal acceptance -/

/-- C8: any non-null requested direction — including the exact opposite of
the remembered current direction — replaces the remembered direction without
rejection: the tick equals the core transition of the state with the
overwritten direction, the candidate head of that same tick is the current
head plus the newly requested direction, and the resulting state remembers
the requested direction. -/
theorem reversal_accepted (s : SnakeGame) (d : Position) (r : Nat) (_hR : Reachable s)
    (_hL : LegalDir d) (hd : d ≠ DIRECTION_NONE) :
    s.update d r = SnakeGame.updateCore { s with direction := d } r ∧
    candidate s d = ⟨(headPos s).x + d.x, (headPos s).y + d.y⟩ ∧
    (∀ s' c, s.update d r = some (s', c) → s'.direction = d) := by
  have happ : applyDir s d = { s with direction := d } := by
    unfold applyDir
    rw [if_pos hd]
  refine ⟨?_, ?_, ?_⟩
  · show (applyDir s d).updateCore r = _
    rw [happ]
  · unfold candidate newHeadPos
    rw [happ]
    rfl
  · intro s' c hup
    replace hup : (applyDir s d).updateCore r = some (s', c) := hup
    rw [happ] at hup
    exact updateCore_direction _ r s' c hup

theorem reversal_accepted_w :
    gameB.update DIRECTION_LEFT 0 =
      SnakeGame.updateCore { gameB with direction := DIRECTION_LEFT } 0 ∧
    candidate gameB DIRECTION_LEFT =
      ⟨(headPos gameB).x + DIRECTION_LEFT.x, (headPos gameB).y + DIRECTION_LEFT.y⟩ := by
  have h := reversal_accepted gameB DIRECTION_LEFT 0 reachable_gameB (by decide) (by decide)
  exact ⟨h.1, h.2.1⟩

/-! ### Claim C9: pause idempotence -/

/-- C9: in the initialized state the remembered direction is still null, so
`tick(None)` returns `Ready` and returns the state unchanged, and repeating
`tick(None)` any number of times keeps the initial state with a zero move
count. -/
theorem pause_idem (r r' : Nat) (n : Nat) :
    (defaultGame r).update DIRECTION_NONE r' = some (defaultGame r, STATE_READY) ∧
    playLoop (defaultGame r) 0 (List.replicate n (DIRECTION_NONE, r')) =
      some (defaultGame r, 0) := by
  have hstep : (defaultGame r).update DIRECTION_NONE r' =
      some (defaultGame r, STATE_READY) := by
    show (applyDir (defaultGame r) DIRECTION_NONE).updateCore r' = _
    have happ : applyDir (defaultGame r) DIRECTION_NONE = defaultGame r := by
      unfold applyDir
      rw [if_neg (by simp)]
    rw [happ, updateCore_ready _ _ (default_dir r)]
  refine ⟨hstep, ?_⟩
  induction n with
  | zero => rfl
  | succ m ih =>
    rw [List.replicate_succ, playLoop_cons _ _ _ _ _ _ _ hstep]
    rw [if_neg (by decide), if_neg (by decide), if_pos rfl]
    exact ih

/-! ### Claim C10: inverse-permutation invariant -/

/-- C10: `hashed_positions` and `indices` are mutually inverse self-maps of
`[0, MAP_SIZE)` — `indices (hashed_positions i) = i` and
`hashed_positions (indices h) = h` with both maps landing below `MAP_SIZE` —
established by the constructor, preserved by `push_snake_head`,
`pop_snake_tail`, `generate_food` and `update`, and therefore holding in
every reachable state. -/
theorem inverse_permutation :
    (∀ r, PermInv (defaultGame r)) ∧
    (∀ s hh, PermInv s → hh < MAP_SIZE → PermInv (s.push_snake_head hh)) ∧
    (∀ s s' th, PermInv s → s.pop_snake_tail = some (s', th) → PermInv s') ∧
    (∀ s s' r, PermInv s → s.generate_food r = some s' → PermInv s') ∧
    (∀ s d r s' c, PermInv s → s.update d r = some (s', c) → PermInv s') ∧
    (∀ s, Reachable s → PermInv s) := by
  have hpop : ∀ s s' th, PermInv s → s.pop_snake_tail = some (s', th) → PermInv s' := by
    intro s s' th hP h
    rw [SnakeGame.pop_snake_tail] at h
    split at h
    · simp at h
    · rw [Option.some.injEq, Prod.mk.injEq] at h
      obtain ⟨h1, -⟩ := h
      rw [← h1]
      exact permInv_pop s hP
  have hupd : ∀ s d r s' c, PermInv s → s.update d r = some (s', c) → PermInv s' := by
    intro s d r s' c hP h
    replace h : (applyDir s d).updateCore r = some (s', c) := h
    have hP1 := permInv_applyDir s d hP
    simp only [SnakeGame.updateCore] at h
    split at h
    next hd =>
      rw [Option.some.injEq, Prod.mk.injEq] at h
      obtain ⟨rfl, rfl⟩ := h
      exact hP1
    next hd =>
      split at h
      next => simp at h
      next hlen0 =>
        split at h
        next hob =>
          rw [Option.some.injEq, Prod.mk.injEq] at h
          obtain ⟨rfl, rfl⟩ := h
          exact hP1
        next hob =>
          split at h
          next he =>
            split at h
            next => simp at h
            next s1 th hpopE =>
              rw [Option.some.injEq, Prod.mk.injEq] at h
              obtain ⟨rfl, rfl⟩ := h
              rw [SnakeGame.pop_snake_tail, if_neg hlen0, Option.some.injEq,
                Prod.mk.injEq] at hpopE
              rw [← hpopE.1]
              exact permInv_push _ _ (permInv_pop _ hP1) (as_hash_lt _ hob)
          next he =>
            split at h
            next hf =>
              split at h
              next hguard =>
                rw [Option.some.injEq, Prod.mk.injEq] at h
                obtain ⟨rfl, rfl⟩ := h
                exact hP1
              next hguard =>
                split at h
                next => simp at h
                next s3 hgen =>
                  rw [Option.some.injEq, Prod.mk.injEq] at h
                  obtain ⟨rfl, rfl⟩ := h
                  exact permInv_generate _ _ r
                    (permInv_push _ _ hP1 (as_hash_lt _ hob)) hgen
            next hf =>
              split at h
              next hsn =>
                rw [Option.some.injEq, Prod.mk.injEq] at h
                obtain ⟨rfl, rfl⟩ := h
                exact hP1
              next => simp at h
  refine ⟨fun r => (inv_default r).toPermInv,
    fun s hh hP h => permInv_push s hh hP h, hpop,
    fun s s' r hP h => permInv_generate s s' r hP h, hupd, ?_⟩
  intro s h
  induction h with
  | init r => exact (inv_default r).toPermInv
  | step s d r s' c hR hL hup hc ih => exact hupd s d r s' c ih hup

theorem inverse_permutation_w :
    PermInv (defaultGame 0) ∧ PermInv ((defaultGame 0).push_snake_head 0) :=
  ⟨inverse_permutation.1 0,
   inverse_permutation.2.1 (defaultGame 0) 0 (inverse_permutation.1 0) (by decide)⟩

/-! ### Claim C3 witness: walk up to the wall, then step off-grid -/

theorem reachable_upChain1 : Reachable (upChain 1) :=
  Reachable.step (upChain 0) DIRECTION_UP 0 (upChain 1) STATE_RUN (Reachable.init 0)
    (by decide) rfl (by decide)

theorem reachable_upChain2 : Reachable (upChain 2) :=
  Reachable.step (upChain 1) DIRECTION_UP 0 (upChain 2) STATE_RUN reachable_upChain1
    (by decide) rfl (by decide)

theorem reachable_upChain3 : Reachable (upChain 3) :=
  Reachable.step (upChain 2) DIRECTION_UP 0 (upChain 3) STATE_RUN reachable_upChain2
    (by decide) rfl (by decide)

theorem reachable_upChain4 : Reachable (upChain 4) :=
  Reachable.step (upChain 3) DIRECTION_UP 0 (upChain 4) STATE_RUN reachable_upChain3
    (by decide) rfl (by decide)

theorem reachable_upChain5 : Reachable (upChain 5) :=
  Reachable.step (upChain 4) DIRECTION_UP 0 (upChain 5) STATE_RUN reachable_upChain4
    (by decide) rfl (by decide)

theorem reachable_upChain6 : Reachable (upChain 6) :=
  Reachable.step (upChain 5) DIRECTION_UP 0 (upChain 6) STATE_RUN reachable_upChain5
    (by decide) rfl (by decide)

theorem reachable_upChain7 : Reachable (upChain 7) :=
  Reachable.step (upChain 6) DIRECTION_UP 0 (upChain 7) STATE_RUN reachable_upChain6
    (by decide) rfl (by decide)

theorem reachable_upChain8 : Reachable (upChain 8) :=
  Reachable.step (upChain 7) DIRECTION_UP 0 (upChain 8) STATE_RUN reachable_upChain7
    (by decide) rfl (by decide)
theorem termination_laws_w :
    ((upChain 8).update DIRECTION_UP 0).map Prod.snd = some STATE_OVER :=
  termination_laws (upChain 8) DIRECTION_UP 0 reachable_upChain8 (by decide)
    (Or.inl (by decide))

/-! ### Claim C7: straight-run scenario -/

theorem straight_step (F k : Nat) (s : SnakeGame) (rr : Nat) (hk : k < 5)
    (_hF : F < 256) (hFout : F < 136 ∨ 141 < F)
    (htail : s.tail_index = 136 + k) (hlen : s.length = 1)
    (hhp : ∀ i, i < MAP_SIZE → s.hashed_positions i = i)
    (hidx : ∀ i, i < MAP_SIZE → s.indices i = i)
    (hmap : ∀ h, h < MAP_SIZE →
      s.map h = if h = F then CELL_FOOD else if h = 136 + k then CELL_SNAKE
        else CELL_EMPTY) :
    ∃ s', s.update DIRECTION_RIGHT rr = some (s', STATE_RUN) ∧
      s'.tail_index = 136 + (k + 1) ∧ s'.length = 1 ∧
      (∀ i, i < MAP_SIZE → s'.hashed_positions i = i) ∧
      (∀ i, i < MAP_SIZE → s'.indices i = i) ∧
      (∀ h, h < MAP_SIZE →
        s'.map h = if h = F then CELL_FOOD else if h = 136 + (k + 1) then CELL_SNAKE
          else CELL_EMPTY) := by
  have hs1dir : (applyDir s DIRECTION_RIGHT).direction = DIRECTION_RIGHT := by
    unfold applyDir
    rw [if_pos (by decide : DIRECTION_RIGHT ≠ DIRECTION_NONE)]
  have hwo : SnakeGame.wrapping_offset (applyDir s DIRECTION_RIGHT).tail_index
      ((applyDir s DIRECTION_RIGHT).length - 1) = 136 + k := by
    rw [applyDir_tail, applyDir_len, htail, hlen, wrapping_def]
    omega
  have hheadhash : headHash (applyDir s DIRECTION_RIGHT) = 136 + k := by
    unfold headHash
    rw [hwo, applyDir_hp, hhp (136 + k) (by rw [MS_eq]; omega)]
  have hob : ¬ offBoard (newHeadPos (applyDir s DIRECTION_RIGHT)) := by
    unfold offBoard newHeadPos headPos Position.from_hash
    rw [hheadhash, hs1dir]
    simp only [DIRECTION_RIGHT, MAP_SIDE_LENGTH]
    omega
  have hhash : (newHeadPos (applyDir s DIRECTION_RIGHT)).as_hash = 137 + k := by
    unfold Position.as_hash newHeadPos headPos Position.from_hash
    rw [hheadhash, hs1dir]
    simp only [DIRECTION_RIGHT, MAP_SIDE_LENGTH]
    omega
  have hemp : (applyDir s DIRECTION_RIGHT).map
      (newHeadPos (applyDir s DIRECTION_RIGHT)).as_hash = CELL_EMPTY := by
    rw [applyDir_map, hhash, hmap (137 + k) (by rw [MS_eq]; omega)]
    rw [if_neg (by omega : ¬ (137 + k = F)), if_neg (by omega : ¬ (137 + k = 136 + k))]
  have hlen1 : (applyDir s DIRECTION_RIGHT).length ≠ 0 := by
    rw [applyDir_len, hlen]
    decide
  have hupdate := updateCore_empty_run (applyDir s DIRECTION_RIGHT) rr
    (by rw [hs1dir]; decide) hlen1 hob hemp
  have hb : SnakeGame.wrapping_offset (applyDir s DIRECTION_RIGHT).popState.tail_index
      (applyDir s DIRECTION_RIGHT).popState.length = 137 + k := by
    rw [pop_tail, pop_len, applyDir_tail, applyDir_len, htail, hlen, wrapping_def,
      wrapping_def]
    omega
  refine ⟨_, hupdate, ?_, ?_, ?_, ?_, ?_⟩
  · rw [push_tail, pop_tail, applyDir_tail, htail, wrapping_def]
    omega
  · rw [push_len, pop_len, applyDir_len, hlen]
  · intro i hi
    rw [push_hp, hb, hhash, pop_idx, applyDir_idx, pop_hp, applyDir_hp]
    rw [hidx (137 + k) (by rw [MS_eq]; omega)]
    by_cases h1 : i = 137 + k
    · rw [if_pos h1, h1]
    · rw [if_neg h1, if_neg h1]
      exact hhp i hi
  · intro g hg
    rw [push_idx, hb, hhash, pop_idx, applyDir_idx, pop_hp, applyDir_hp]
    rw [hhp (137 + k) (by rw [MS_eq]; omega), hidx (137 + k) (by rw [MS_eq]; omega)]
    by_cases h1 : g = 137 + k
    · rw [if_pos h1, h1]
    · rw [if_neg h1, if_neg h1]
      exact hidx g hg
  · intro h hh
    rw [push_map, pop_map, applyDir_map, applyDir_hp, applyDir_tail, htail, hhash]
    rw [hhp (136 + k) (by rw [MS_eq]; omega)]
    by_cases h1 : h = 137 + k
    · rw [if_pos h1, if_neg (by omega : ¬ (h = F)),
        if_pos (by omega : h = 136 + (k + 1))]
    · rw [if_neg h1]
      by_cases h2 : h = 136 + k
      · rw [if_pos h2, if_neg (by omega : ¬ (h = F)),
          if_neg (by omega : ¬ (h = 136 + (k + 1)))]
      · rw [if_neg h2, hmap h hh]
        by_cases h3 : h = F
        · rw [if_pos h3, if_pos h3]
        · rw [if_neg h3, if_neg h3, if_neg h2,
            if_neg (by omega : ¬ (h = 136 + (k + 1)))]

/-- C7: on the 16×16 board seeded at (8,8), if the initial food lies on none
of the cells (9,8)..(13,8) (hashes 137..141), five consecutive `Right` ticks
each return `Running`: the loop ends with move counter 5, the head at (13,8),
and the snake length still 1. -/
theorem straight_run (r a b c d' e : Nat)
    (hfood : ∀ h, h < MAP_SIZE → 137 ≤ h → h ≤ 141 → (defaultGame r).map h ≠ CELL_FOOD) :
    ∃ s5, playLoop (defaultGame r) 0
        [(DIRECTION_RIGHT, a), (DIRECTION_RIGHT, b), (DIRECTION_RIGHT, c),
         (DIRECTION_RIGHT, d'), (DIRECTION_RIGHT, e)] = some (s5, 5) ∧
      headPos s5 = ⟨13, 8⟩ ∧ s5.length = 1 := by
  have hFlt := foodCell_lt r
  have hFne := foodCell_ne r
  have hFout : foodCell r < 136 ∨ 141 < foodCell r := by
    by_contra hcon
    push_neg at hcon
    obtain ⟨hc1, hc2⟩ := hcon
    have h137 : 137 ≤ foodCell r := by omega
    have hx := hfood (foodCell r) (by rw [MS_eq]; omega) h137 hc2
    rw [default_map, if_pos rfl] at hx
    exact hx rfl
  obtain ⟨s1, hu1, ht1, hl1, hhp1, hidx1, hm1⟩ :=
    straight_step (foodCell r) 0 (defaultGame r) a (by omega) hFlt hFout
      (by rw [default_tail]) (default_len r) (fun i _ => default_hp r i)
      (fun i _ => default_idx r i) (fun h _ => default_map r h)
  obtain ⟨s2, hu2, ht2, hl2, hhp2, hidx2, hm2⟩ :=
    straight_step (foodCell r) 1 s1 b (by omega) hFlt hFout ht1 hl1 hhp1 hidx1 hm1
  obtain ⟨s3, hu3, ht3, hl3, hhp3, hidx3, hm3⟩ :=
    straight_step (foodCell r) 2 s2 c (by omega) hFlt hFout ht2 hl2 hhp2 hidx2 hm2
  obtain ⟨s4, hu4, ht4, hl4, hhp4, hidx4, hm4⟩ :=
    straight_step (foodCell r) 3 s3 d' (by omega) hFlt hFout ht3 hl3 hhp3 hidx3 hm3
  obtain ⟨s5, hu5, ht5, hl5, hhp5, hidx5, hm5⟩ :=
    straight_step (foodCell r) 4 s4 e (by omega) hFlt hFout ht4 hl4 hhp4 hidx4 hm4
  refine ⟨s5, ?_, ?_, hl5⟩
  · rw [playLoop_cons _ _ _ _ _ _ _ hu1, if_neg (by decide), if_pos rfl]
    rw [playLoop_cons _ _ _ _ _ _ _ hu2, if_neg (by decide), if_pos rfl]
    rw [playLoop_cons _ _ _ _ _ _ _ hu3, if_neg (by decide), if_pos rfl]
    rw [playLoop_cons _ _ _ _ _ _ _ hu4, if_neg (by decide), if_pos rfl]
    rw [playLoop_cons _ _ _ _ _ _ _ hu5, if_neg (by decide), if_pos rfl]
    rfl
  · have harg : SnakeGame.wrapping_offset s5.tail_index (s5.length - 1) = 141 := by
      rw [ht5, hl5, wrapping_def]
    have hheadhash : headHash s5 = 141 := by
      unfold headHash
      rw [harg, hhp5 141 (by decide)]
    unfold headPos
    rw [hheadhash]
    decide

set_option maxRecDepth 10000 in
theorem straight_run_w :
    (∀ h, h < MAP_SIZE → 137 ≤ h → h ≤ 141 → (defaultGame 100).map h ≠ CELL_FOOD) ∧
    (∃ s5, playLoop (defaultGame 100) 0
        [(DIRECTION_RIGHT, 0), (DIRECTION_RIGHT, 0), (DIRECTION_RIGHT, 0),
         (DIRECTION_RIGHT, 0), (DIRECTION_RIGHT, 0)] = some (s5, 5) ∧
      headPos s5 = ⟨13, 8⟩ ∧ s5.length = 1) :=
  ⟨by decide, straight_run 100 0 0 0 0 0 (by decide)⟩
